import Mathlib

/-!
Shallow embedding of two cudf source files and a verification of the frozen
claims about them:

* the scan kernel (`cudf::detail::scan` and `scan_dispatcher` for arithmetic
  element types): exclusive/inclusive prefix scans with `INCLUDE`/`EXCLUDE`
  null policies, the derived inclusive-scan null mask, and the null-count
  post-condition check;
* the legacy `cudf::drop_nulls` table filter with its `ANY`/`ALL` key policy;
* the strings `to_integers` / `from_integers` conversions with their
  per-element parser `string_to_integer` and printer `integer_to_string_fn`.

Columns of a fixed-width type are embedded as a list of element values plus an
optional validity mask (a list of booleans, `true` = valid), mirroring the
buffer + optional null-bitmask representation; machine integers are embedded
as `Int` (the 32-bit narrowing cast in `to_integers` is made explicit as a
wrap-around `% 2^32`).  String elements are lists of byte values (`Nat`),
mirroring the byte-wise processing of the device code.
-/

/-- Null-handling policy of `cudf::scan` (`null_policy` in the source). -/
inductive NullPolicy where
  | INCLUDE
  | EXCLUDE
deriving DecidableEq, Repr

/-- Device binary operator together with its identity element, the interface
`scan_dispatcher`'s `Op` template parameter provides (`Op{}` and
`Op::identity<T>()`). -/
structure ScanOp (T : Type) where
  op : T → T → T
  identity : T

/-- Fixed-width column: element values plus an optional validity mask
(`true` = valid).  `mask = none` embeds a column whose null-mask buffer was
never allocated. -/
structure NColumn (T : Type) where
  vals : List T
  mask : Option (List Bool)

/-- Null count of a column: number of unset bits of the mask, `0` for a
maskless column (`column_view::null_count`). -/
def nullCountN {T : Type} (c : NColumn T) : Nat :=
  match c.mask with
  | none => 0
  | some m => m.count false

/-- Validity of element `i` (`bit_mask`/`is_valid` semantics: a column with no
mask is valid everywhere). -/
def validAtN {T : Type} (c : NColumn T) (i : Nat) : Bool :=
  match c.mask with
  | none => true
  | some m => m.getD i false

/-- Well-formedness of the embedding: when a mask is allocated it has one bit
per element. -/
def maskOk {T : Type} (c : NColumn T) : Bool :=
  match c.mask with
  | none => true
  | some m => m.length == c.vals.length

/-- Index of the first null of the column, `vals.length` when there is none
(the `thrust::find_if_not` over the validity iterator in
`mask_inclusive_scan`, lifted to the column). -/
def firstNullIdx {T : Type} (c : NColumn T) : Nat :=
  match c.mask with
  | none => c.vals.length
  | some m => m.findIdx (fun b => !b)

/-- Element stream seen by the scan: `make_null_replacement_iterator` yields
the element when valid and `ident` when null, and is only engaged when the
column actually has nulls (`input_view.has_nulls()`). -/
def nullReplaced {T : Type} (c : NColumn T) (ident : T) : List T :=
  if 0 < nullCountN c then
    List.zipWith (fun b v => if b then v else ident) (c.mask.getD []) c.vals
  else c.vals

/-- List form of `thrust::exclusive_scan`: `out[0] = acc`,
`out[i] = op out[i-1] in[i-1]`. -/
def exclScanAcc {T : Type} (op : T → T → T) (acc : T) : List T → List T
  | [] => []
  | x :: xs => acc :: exclScanAcc op (op acc x) xs

/-- Tail of `thrust::inclusive_scan` after the running value `acc` has
absorbed a prefix: `out[i] = op out[i-1] in[i]`. -/
def inclScanAcc {T : Type} (op : T → T → T) (acc : T) : List T → List T
  | [] => []
  | x :: xs => (op acc x) :: inclScanAcc op (op acc x) xs

/-- List form of `thrust::inclusive_scan`. -/
def inclScan {T : Type} (op : T → T → T) : List T → List T
  | [] => []
  | x :: xs => x :: inclScanAcc op x xs

/-- Output mask of an inclusive scan under the `INCLUDE` policy
(`scan_dispatcher::mask_inclusive_scan`): valid on `[0, first_null)`, null on
`[first_null, size)`. -/
def maskInclusiveScan (m : List Bool) : List Bool :=
  let firstNullPosition := m.findIdx (fun b => !b)
  (List.range m.length).map (fun i => decide (i < firstNullPosition))

/-- Embedding of `scan_dispatcher::exclusive_scan` for arithmetic types:
values are the exclusive scan of the null-replaced input seeded with the
operator identity; the output mask is a copy of the input's under `EXCLUDE`
and stays unallocated otherwise (`mask_allocation_policy::NEVER`). -/
def exclusive_scan {T : Type} (sop : ScanOp T) (pol : NullPolicy) (c : NColumn T) :
    NColumn T :=
  { vals := exclScanAcc sop.op sop.identity (nullReplaced c sop.identity)
  , mask :=
      match pol with
      | .EXCLUDE => c.mask
      | .INCLUDE => none }

/-- Embedding of `scan_dispatcher::inclusive_scan` for arithmetic types:
values are the inclusive scan of the null-replaced input; the output mask is a
copy of the input's under `EXCLUDE`, and under `INCLUDE` it is derived by
`mask_inclusive_scan` when the input is nullable. -/
def inclusive_scan {T : Type} (sop : ScanOp T) (pol : NullPolicy) (c : NColumn T) :
    NColumn T :=
  { vals := inclScan sop.op (nullReplaced c sop.identity)
  , mask :=
      match pol with
      | .EXCLUDE => c.mask
      | .INCLUDE =>
          match c.mask with
          | none => none
          | some m => some (maskInclusiveScan m) }

/-- The scan output chosen by `scan_dispatcher::operator()` before its
post-condition check. -/
def scan_impl {T : Type} (sop : ScanOp T) (inclusive : Bool) (pol : NullPolicy)
    (c : NColumn T) : NColumn T :=
  if inclusive then inclusive_scan sop pol c else exclusive_scan sop pol c

/-- Embedding of `CUDF_EXPECTS cond msg`: the value passes through when the
condition holds, otherwise the call fails with `msg`. -/
def expects {A : Type} (cond : Prop) [Decidable cond] (msg : String) (val : A) :
    Except String A :=
  if cond then .ok val else .error msg

/-- Embedding of `scan_dispatcher::operator()`: runs the scan and, under the
`EXCLUDE` policy, checks the input/output null-count post-condition. -/
def scan_checked {T : Type} (sop : ScanOp T) (inclusive : Bool) (pol : NullPolicy)
    (c : NColumn T) : Except String (NColumn T) :=
  let output := scan_impl sop inclusive pol c
  match pol with
  | .EXCLUDE =>
      expects (nullCountN c = nullCountN output)
        "Input / output column null count mismatch" output
  | .INCLUDE => .ok output

/-- Modelled from the spec: the device operator identities (the header
`device_operators.cuh` is not among the sources): Sum→0, Product→1,
Min→max-of-type, Max→min-of-type.  `DeviceMin`/`DeviceMax` take the type's
numeric limit as a parameter. -/
def DeviceSum : ScanOp Int := ⟨fun a b => a + b, 0⟩

/-- Modelled from the spec: product operator, identity 1. -/
def DeviceProduct : ScanOp Int := ⟨fun a b => a * b, 1⟩

/-- Modelled from the spec: minimum operator, identity `numeric_limits::max()`
of the element type. -/
def DeviceMin (typeMax : Int) : ScanOp Int := ⟨fun a b => min a b, typeMax⟩

/-- Modelled from the spec: maximum operator, identity
`numeric_limits::lowest()` of the element type. -/
def DeviceMax (typeMin : Int) : ScanOp Int := ⟨fun a b => max a b, typeMin⟩

/-- Runtime type tags relevant to `cudf::detail::scan`, restricted to the
integer-representable element types (floating-point and string columns carry
element representations outside this integer embedding). -/
inductive DTypeK where
  | int8 | int16 | int32 | int64
  | uint8 | uint16 | uint32 | uint64
  | bool8
  | decimal32 | decimal64
  | timestamp_s
deriving DecidableEq, Repr

/-- `cudf::is_numeric` on the embedded type tags. -/
def isNumericT : DTypeK → Bool
  | .int8 | .int16 | .int32 | .int64 => true
  | .uint8 | .uint16 | .uint32 | .uint64 => true
  | .bool8 => true
  | _ => false

/-- `cudf::is_fixed_point` on the embedded type tags. -/
def isFixedPointT : DTypeK → Bool
  | .decimal32 | .decimal64 => true
  | _ => false

/-- `cudf::is_compound` on the embedded type tags: none of the embedded
(fixed-width) tags is compound. -/
def isCompoundT : DTypeK → Bool := fun _ => false

/-- `numeric_limits` maximum of the storage type behind each tag
(`dispatch_storage_type` maps decimal32/64 to int32/int64). -/
def typeMaxOf : DTypeK → Int
  | .int8 => 2 ^ 7 - 1
  | .int16 => 2 ^ 15 - 1
  | .int32 => 2 ^ 31 - 1
  | .int64 => 2 ^ 63 - 1
  | .uint8 => 2 ^ 8 - 1
  | .uint16 => 2 ^ 16 - 1
  | .uint32 => 2 ^ 32 - 1
  | .uint64 => 2 ^ 64 - 1
  | .bool8 => 1
  | .decimal32 => 2 ^ 31 - 1
  | .decimal64 => 2 ^ 63 - 1
  | .timestamp_s => 0

/-- `numeric_limits` minimum of the storage type behind each tag. -/
def typeMinOf : DTypeK → Int
  | .int8 => -(2 ^ 7)
  | .int16 => -(2 ^ 15)
  | .int32 => -(2 ^ 31)
  | .int64 => -(2 ^ 63)
  | .uint8 | .uint16 | .uint32 | .uint64 => 0
  | .bool8 => 0
  | .decimal32 => -(2 ^ 31)
  | .decimal64 => -(2 ^ 63)
  | .timestamp_s => 0

/-- Aggregation kinds reaching the `switch` of `cudf::detail::scan`
(`aggregation::kind`); `MEAN` stands in for the kinds handled by the
`default:` branch. -/
inductive AggKind where
  | SUM | PRODUCT | MIN | MAX | MEAN
deriving DecidableEq, Repr

/-- Embedding of `cudf::detail::scan`: the type precondition, the dispatch on
the aggregation kind, and the unconditional rejection of a product scan on a
fixed-point type before any dispatch. -/
def detail_scan (ty : DTypeK) (agg : AggKind) (inclusive : Bool) (pol : NullPolicy)
    (c : NColumn Int) : Except String (NColumn Int) :=
  if ¬(isNumericT ty = true ∨ isCompoundT ty = true ∨ isFixedPointT ty = true) then
    .error "Unexpected non-numeric or non-string type."
  else
    match agg with
    | .SUM => scan_checked DeviceSum inclusive pol c
    | .MIN => scan_checked (DeviceMin (typeMaxOf ty)) inclusive pol c
    | .MAX => scan_checked (DeviceMax (typeMinOf ty)) inclusive pol c
    | .PRODUCT =>
        if isFixedPointT ty = true then .error "decimal32/64 cannot support product scan"
        else scan_checked DeviceProduct inclusive pol c
    | _ => .error "Unsupported aggregation operator for scan"

/-- Key policy of the legacy `cudf::drop_nulls` (`cudf::any_or_all`):
`ANY` drops a row with at least one null key, `ALL` drops a row only when all
keys are null. -/
inductive AnyOrAll where
  | ANY
  | ALL
deriving DecidableEq, Repr

/-- Legacy `gdf_column` as `valid_table_filter` sees it: a row count, the
stored `null_count`, and the `valid` bitmask pointer — `none` embeds a null
pointer, and `some f` embeds an allocated bit buffer whose bit `i` is `f i`
(the buffer extends beyond the row count, as device memory does). -/
structure GColumn where
  len : Nat
  nullCount : Nat
  mask : Option (Nat → Bool)

/-- Legacy table: columns plus the common row count. -/
structure GTable where
  cols : List GColumn
  rows : Nat

/-- The `valid` lambda of `valid_table_filter::operator()`: a null mask
pointer means every index is valid, otherwise `bit_mask::is_valid` reads
bit `i`. -/
def valid_at (col : GColumn) (i : Nat) : Bool :=
  match col.mask with
  | none => true
  | some f => f i

/-- Embedding of `valid_table_filter::operator()`: under `ALL` keep row `i`
when any key column is valid there (`thrust::any_of`), under `ANY` keep it
when all key columns are valid there (`thrust::all_of`). -/
def valid_table_filter (cols : List GColumn) (dropIf : AnyOrAll) (i : Nat) : Bool :=
  match dropIf with
  | .ALL => cols.any (fun c => valid_at c i)
  | .ANY => cols.all (fun c => valid_at c i)

/-- Modelled from the spec: `cudf::has_nulls` on a legacy table (its
definition is not among the sources) — whether some column has an allocated
mask and a positive stored null count. -/
def has_nullsT (t : GTable) : Bool :=
  t.cols.any (fun c => c.mask.isSome && decide (0 < c.nullCount))

/-- Modelled from the spec: `cudf::detail::copy_if` (the header `copy_if.cuh`
is not among the sources) — stable compaction keeping exactly the rows whose
index satisfies the predicate, in their original relative order. -/
def copy_if {R : Type} (input : List R) (p : Nat → Bool) : List R :=
  (input.enum.filter (fun x => p x.1)).map (fun x => x.2)

/-- Well-formedness of a key table: every column spans the table's rows, and
its stored null count agrees with the unset mask bits over those rows. -/
def keysOk (t : GTable) : Bool :=
  t.cols.all (fun c =>
    c.len == t.rows &&
    c.nullCount == (List.range c.len).countP (fun i => valid_at c i == false))

/-- Embedding of the legacy `cudf::drop_nulls`: short-circuit when the key
table has no columns, no rows, or no nulls; then the row-count precondition
(`CUDF_EXPECTS`); then the stable compaction by the key predicate.  The rows
of the target table are abstracted as an arbitrary type `R`. -/
def drop_nulls {R : Type} (input : List R) (keys : GTable) (dropIf : AnyOrAll) :
    Except String (List R) :=
  if keys.cols.length = 0 ∨ keys.rows = 0 ∨ has_nullsT keys = false then
    .ok input
  else if ¬(keys.rows ≤ input.length) then
    .error "Column size mismatch"
  else
    .ok (copy_if input (valid_table_filter keys.cols dropIf))

/-- Digit loop of `string_to_integer`, instrumented with the list of byte
indices it reads: starting at byte index `pos` it reads a byte per step,
stops at the first byte outside `['0','9']` (48..57), and otherwise
accumulates `value * 10 + (chr - '0')`.  The fuel argument embeds the
`idx < bytes` loop bound. -/
def digit_loop (data : Nat → Nat) (pos : Nat) (acc : Int) : Nat → Int × List Nat
  | 0 => (acc, [])
  | fuel + 1 =>
      let chr := data pos
      if chr < 48 ∨ 57 < chr then (acc, [pos])
      else
        let r := digit_loop data (pos + 1) (acc * 10 + ((chr : Int) - 48)) fuel
        (r.1, pos :: r.2)

/-- Embedding of the device function `string_to_integer`, instrumented with
the list of byte indices it reads.  `data` is the memory at the element's
first byte and `bytes` the element's byte length: the first byte is read
before any length test (the sign check `*ptr == '-' || *ptr == '+'`), a sign
consumes one byte and decrements the remaining length, and the digit loop
runs over the rest. -/
def string_to_integer_run (data : Nat → Nat) (bytes : Int) : Int × List Nat :=
  let c0 := data 0
  if c0 = 45 ∨ c0 = 43 then
    let sign : Int := if c0 = 45 then -1 else 1
    let r := digit_loop data 1 0 (bytes - 1).toNat
    (r.1 * sign, 0 :: r.2)
  else
    let r := digit_loop data 0 0 bytes.toNat
    (r.1 * 1, 0 :: r.2)

/-- Value computed by `string_to_integer` on a string element given as its
byte list (bytes beyond the element read as 0, a non-sign non-digit byte). -/
def string_to_integer (s : List Nat) : Int :=
  (string_to_integer_run (fun i => s.getD i 0) (s.length : Int)).1

/-- The `static_cast<int32_t>` narrowing at the end of `to_integers`,
embedded as the two's-complement wrap into `[-2^31, 2^31)`. -/
def toInt32 (v : Int) : Int := (v + 2 ^ 31) % 2 ^ 32 - 2 ^ 31

/-- Embedding of `cudf::strings::to_integers`: a strings column (elements as
byte lists, `none` = null) to an INT32 column; the null mask and null count
are copied from the input, and each valid element is parsed by
`string_to_integer` and narrowed to 32 bits.  (The `0` the kernel stores at a
null position sits behind an unset mask bit and is not an observable element,
so a null element maps to `none`.) -/
def to_integers (col : List (Option (List Nat))) : List (Option Int) :=
  col.map (fun e => e.map (fun s => toInt32 (string_to_integer s)))

/-- Digit bytes of `value`, least significant first, as the digit loop of
`integer_to_string_fn` writes them (`'0' + value % 10`, then `value /= 10`,
until `value = 0`). -/
def digitsLSD (v : Nat) : List Nat :=
  if h : v = 0 then []
  else (48 + v % 10) :: digitsLSD (v / 10)
decreasing_by exact Nat.div_lt_self (Nat.pos_of_ne_zero h) (by norm_num)

/-- Two's-complement wrap of an integer into the signed `w`-bit range
`[-2^(w-1), 2^(w-1))` — the value a signed `w`-bit machine variable holds. -/
def toSigned (w : Nat) (v : Int) : Int :=
  (v + 2 ^ (w - 1)) % 2 ^ w - 2 ^ (w - 1)

/-- Embedding of the per-element body of `integer_to_string_fn`, instantiated
at a signed integer type of `w` bits (the dispatcher's `IntegerType`): zero
prints as the single byte `'0'`; otherwise `value = -value` is executed for a
negative value in the `w`-bit machine arithmetic — so at the type minimum the
negation wraps back to the minimum and stays negative — then the digit loop
(which runs only while `value > 0`) writes the digits least significant
first, a `'-'` (45) is appended for a negative input, and the buffer is
reversed in place.  At the type minimum the digit loop writes nothing and the
element is just `"-"`. -/
def int_to_string (w : Nat) (value : Int) : List Nat :=
  if value = 0 then [48]
  else
    (digitsLSD ((if value < 0 then toSigned w (-value) else value)).toNat
      ++ (if value < 0 then [45] else [])).reverse

/-- Embedding of `cudf::strings::from_integers` on an integer column whose
signed element type has `w` bits: the null mask and null count are copied, a
null element contributes length 0 and writes nothing (`none`), and each valid
element is printed by `int_to_string w`. -/
def from_integers (w : Nat) (col : List (Option Int)) : List (Option (List Nat)) :=
  col.map (Option.map (int_to_string w))

/-- Decimal digit test on a byte, the spec's "decimal digits". -/
def is_digit (c : Nat) : Bool := 48 ≤ c && c ≤ 57

/-- Decimal value of a digit-byte list read most significant first, from an
initial accumulator. -/
def digitsValFrom (acc : Int) (ds : List Nat) : Int :=
  List.foldl (fun (a : Int) (c : Nat) => a * 10 + ((c : Int) - 48)) acc ds

/-- Decimal value of a digit-byte list read most significant first. -/
def digitsVal (ds : List Nat) : Int := digitsValFrom 0 ds

/-- Spec-side parser for the string→integer conversion, following the spec's
words: an optional leading `+`/`-` sign, then the value of the maximal
leading run of decimal digits (an empty run parses as 0), everything after it
ignored. -/
def parse_spec (s : List Nat) : Int :=
  if s.getD 0 0 = 45 then -(digitsVal ((s.drop 1).takeWhile is_digit))
  else if s.getD 0 0 = 43 then digitsVal ((s.drop 1).takeWhile is_digit)
  else digitsVal (s.takeWhile is_digit)

section ScanLemmas

variable {T : Type}

lemma exclScanAcc_length (op : T → T → T) (acc : T) (xs : List T) :
    (exclScanAcc op acc xs).length = xs.length := by
  induction xs generalizing acc with
  | nil => rfl
  | cons x xs ih => simpa [exclScanAcc] using ih (op acc x)

lemma exclScanAcc_getD (op : T → T → T) (d : T) (xs : List T) :
    ∀ (acc : T) (i : Nat), i < xs.length →
      (exclScanAcc op acc xs).getD i d = (xs.take i).foldl op acc := by
  induction xs with
  | nil => intro acc i h; simp at h
  | cons x xs ih =>
      intro acc i h
      cases i with
      | zero => simp [exclScanAcc]
      | succ i =>
          have hi : i < xs.length := by simpa using h
          simpa [exclScanAcc] using ih (op acc x) i hi

lemma inclScanAcc_length (op : T → T → T) (acc : T) (xs : List T) :
    (inclScanAcc op acc xs).length = xs.length := by
  induction xs generalizing acc with
  | nil => rfl
  | cons x xs ih => simpa [inclScanAcc] using ih (op acc x)

lemma inclScan_length (op : T → T → T) (xs : List T) :
    (inclScan op xs).length = xs.length := by
  cases xs with
  | nil => rfl
  | cons x xs => simp [inclScan, inclScanAcc_length]

lemma nullReplaced_length (c : NColumn T) (ident : T)
    (h : maskOk c = true) : (nullReplaced c ident).length = c.vals.length := by
  unfold nullReplaced
  split
  · rename_i hpos
    cases hm : c.mask with
    | none => simp [nullCountN, hm] at hpos
    | some m =>
        have hlen : m.length = c.vals.length := by
          simpa [maskOk, hm] using h
        simp [hm, hlen]
  · rfl

end ScanLemmas

/-- C3: for every operator and both inclusivity modes under the `EXCLUDE`
null policy, `scan_dispatcher::operator()` succeeds with an output whose null
mask is a copy of the input's and whose null count equals the input's null
count; and a null-count mismatch at the `CUDF_EXPECTS` post-condition would
be reported as the internal-consistency error
"Input / output column null count mismatch" rather than tolerated. -/
theorem scan_exclude_nullcount {T : Type} (sop : ScanOp T) (inclusive : Bool)
    (c : NColumn T) :
    scan_checked sop inclusive .EXCLUDE c = .ok (scan_impl sop inclusive .EXCLUDE c)
    ∧ (scan_impl sop inclusive .EXCLUDE c).mask = c.mask
    ∧ nullCountN (scan_impl sop inclusive .EXCLUDE c) = nullCountN c
    ∧ (∀ out : NColumn T, nullCountN c ≠ nullCountN out →
        expects (nullCountN c = nullCountN out)
          "Input / output column null count mismatch" out
          = .error "Input / output column null count mismatch") := by
  have hmask : (scan_impl sop inclusive .EXCLUDE c).mask = c.mask := by
    cases inclusive <;> rfl
  have hcount : nullCountN (scan_impl sop inclusive .EXCLUDE c) = nullCountN c := by
    unfold nullCountN
    rw [hmask]
  refine ⟨?_, hmask, hcount, ?_⟩
  · show expects _ _ _ = _
    unfold expects
    rw [if_pos hcount.symm]
  · intro out h
    unfold expects
    rw [if_neg h]

/-- C3 witness: the theorem applied at a concrete nullable `Int` column and a
concrete mismatching column pair. -/
theorem scan_exclude_nullcount_witness :
    (scan_checked DeviceSum true .EXCLUDE ⟨[1, 2, 3], some [true, false, true]⟩
      = .ok (scan_impl DeviceSum true .EXCLUDE ⟨[1, 2, 3], some [true, false, true]⟩))
    ∧ (expects
        (nullCountN (⟨[1, 2, 3], some [true, false, true]⟩ : NColumn Int)
          = nullCountN (⟨[9], some [true]⟩ : NColumn Int))
        "Input / output column null count mismatch" (⟨[9], some [true]⟩ : NColumn Int)
        = .error "Input / output column null count mismatch") :=
  ⟨(scan_exclude_nullcount DeviceSum true ⟨[1, 2, 3], some [true, false, true]⟩).1,
   (scan_exclude_nullcount DeviceSum true ⟨[1, 2, 3], some [true, false, true]⟩).2.2.2
     ⟨[9], some [true]⟩ (by decide)⟩

/-- C8: a PRODUCT scan requested on a fixed-point (decimal32 or decimal64)
column fails in `cudf::detail::scan` with the type-incompatibility error
"decimal32/64 cannot support product scan" before any dispatch, for both
inclusivity modes and both null policies, and never returns a computed
column. -/
theorem product_scan_fixed_point_rejected :
    (∀ (inclusive : Bool) (pol : NullPolicy) (c : NColumn Int),
      detail_scan .decimal32 .PRODUCT inclusive pol c
        = .error "decimal32/64 cannot support product scan")
    ∧ (∀ (inclusive : Bool) (pol : NullPolicy) (c : NColumn Int),
      detail_scan .decimal64 .PRODUCT inclusive pol c
        = .error "decimal32/64 cannot support product scan") := by
  constructor <;> · intro inclusive pol c; rfl

lemma maskInclusiveScan_length (m : List Bool) :
    (maskInclusiveScan m).length = m.length := by
  simp [maskInclusiveScan]

lemma maskInclusiveScan_getD (m : List Bool) (i : Nat) (h : i < m.length) :
    (maskInclusiveScan m).getD i false = decide (i < m.findIdx (fun b => !b)) := by
  have h2 : i < (maskInclusiveScan m).length := by
    simpa [maskInclusiveScan_length] using h
  rw [List.getD_eq_getElem _ _ h2]
  simp [maskInclusiveScan]

lemma maskInclusiveScan_count_false (m : List Bool)
    (h : m.findIdx (fun b => !b) = m.length) :
    (maskInclusiveScan m).count false = 0 := by
  rw [List.count_eq_zero]
  intro hmem
  unfold maskInclusiveScan at hmem
  rcases List.mem_map.mp hmem with ⟨j, hj, hval⟩
  have hjlt : j < m.length := List.mem_range.mp hj
  rw [h] at hval
  simp [hjlt] at hval

/-- C2: for every operator, inclusive scan under the `INCLUDE` null policy on
a well-formed column preserves the length, marks output position `i` valid
exactly when `i` precedes the input's first null index `k` (`k = N` when
there is no null), and in particular produces no output nulls when
`k = N`. -/
theorem inclusive_scan_include_mask {T : Type} (sop : ScanOp T) (c : NColumn T)
    (hwf : maskOk c = true) :
    (inclusive_scan sop .INCLUDE c).vals.length = c.vals.length
    ∧ (∀ i, i < c.vals.length →
        validAtN (inclusive_scan sop .INCLUDE c) i = decide (i < firstNullIdx c))
    ∧ (firstNullIdx c = c.vals.length →
        nullCountN (inclusive_scan sop .INCLUDE c) = 0) := by
  have hlen : (inclusive_scan sop .INCLUDE c).vals.length = c.vals.length := by
    show (inclScan sop.op (nullReplaced c sop.identity)).length = _
    rw [inclScan_length, nullReplaced_length c sop.identity hwf]
  refine ⟨hlen, ?_, ?_⟩
  · intro i hi
    cases hm : c.mask with
    | none =>
        have hmask : (inclusive_scan sop .INCLUDE c).mask = none := by
          simp [inclusive_scan, hm]
        rw [validAtN, hmask]
        unfold firstNullIdx
        rw [hm]
        simp [hi]
    | some m =>
        have hmlen : m.length = c.vals.length := by
          simpa [maskOk, hm] using hwf
        have hmask : (inclusive_scan sop .INCLUDE c).mask = some (maskInclusiveScan m) := by
          simp [inclusive_scan, hm]
        rw [validAtN, hmask]
        unfold firstNullIdx
        rw [hm]
        exact maskInclusiveScan_getD m i (by rw [hmlen]; exact hi)
  · intro hk
    cases hm : c.mask with
    | none => simp [nullCountN, inclusive_scan, hm]
    | some m =>
        have hmlen : m.length = c.vals.length := by
          simpa [maskOk, hm] using hwf
        have hfind : m.findIdx (fun b => !b) = m.length := by
          have hkm : firstNullIdx c = m.findIdx (fun b => !b) := by
            simp [firstNullIdx, hm]
          rw [hkm] at hk
          rw [hk, hmlen]
        simp only [nullCountN, inclusive_scan, hm]
        exact maskInclusiveScan_count_false m hfind

/-- C2 witness: the theorem applied at a concrete nullable `Int` column whose
first null is at index 2. -/
theorem inclusive_scan_include_mask_witness :
    maskOk (⟨[1, 2, 3, 4], some [true, true, false, true]⟩ : NColumn Int) = true
    ∧ ((inclusive_scan DeviceSum .INCLUDE
          (⟨[1, 2, 3, 4], some [true, true, false, true]⟩ : NColumn Int)).vals.length = 4
      ∧ (∀ i, i < 4 →
          validAtN (inclusive_scan DeviceSum .INCLUDE
              (⟨[1, 2, 3, 4], some [true, true, false, true]⟩ : NColumn Int)) i
            = decide (i < firstNullIdx
                (⟨[1, 2, 3, 4], some [true, true, false, true]⟩ : NColumn Int)))
      ∧ (firstNullIdx (⟨[1, 2, 3, 4], some [true, true, false, true]⟩ : NColumn Int) = 4 →
          nullCountN (inclusive_scan DeviceSum .INCLUDE
              (⟨[1, 2, 3, 4], some [true, true, false, true]⟩ : NColumn Int)) = 0)) :=
  ⟨by decide,
   inclusive_scan_include_mask DeviceSum
     ⟨[1, 2, 3, 4], some [true, true, false, true]⟩ (by decide)⟩

/-- C7: for every operator and either null policy on a well-formed column,
the exclusive scan has the input's length, `output[0]` is the operator's
identity, `output[i]` is the left-fold of the operator over the first `i`
null-replaced input elements seeded with the identity, a null input position
contributes the identity element to that stream, and the identities of the
device operators are Sum→0, Product→1, Min→max-of-type, Max→min-of-type. -/
theorem exclusive_scan_values {T : Type} (sop : ScanOp T) (pol : NullPolicy)
    (c : NColumn T) (hwf : maskOk c = true) :
    (exclusive_scan sop pol c).vals.length = c.vals.length
    ∧ (∀ d : T, 0 < c.vals.length →
        (exclusive_scan sop pol c).vals.getD 0 d = sop.identity)
    ∧ (∀ (d : T) (i : Nat), i < c.vals.length →
        (exclusive_scan sop pol c).vals.getD i d
          = ((nullReplaced c sop.identity).take i).foldl sop.op sop.identity)
    ∧ (∀ (d : T) (i : Nat), i < c.vals.length → validAtN c i = false →
        (nullReplaced c sop.identity).getD i d = sop.identity)
    ∧ DeviceSum.identity = 0 ∧ DeviceProduct.identity = 1
    ∧ (∀ tmax : Int, (DeviceMin tmax).identity = tmax)
    ∧ (∀ tmin : Int, (DeviceMax tmin).identity = tmin) := by
  have hrep : (nullReplaced c sop.identity).length = c.vals.length :=
    nullReplaced_length c sop.identity hwf
  have hvals : (exclusive_scan sop pol c).vals
      = exclScanAcc sop.op sop.identity (nullReplaced c sop.identity) := rfl
  refine ⟨?_, ?_, ?_, ?_, rfl, rfl, fun _ => rfl, fun _ => rfl⟩
  · rw [hvals, exclScanAcc_length, hrep]
  · intro d h
    rw [hvals, exclScanAcc_getD sop.op d _ sop.identity 0 (by rw [hrep]; exact h)]
    simp
  · intro d i hi
    rw [hvals]
    exact exclScanAcc_getD sop.op d _ sop.identity i (by rw [hrep]; exact hi)
  · intro d i hi hvalid
    cases hm : c.mask with
    | none =>
        rw [validAtN, hm] at hvalid
        simp at hvalid
    | some m =>
        have hmlen : m.length = c.vals.length := by
          simpa [maskOk, hm] using hwf
        have him : i < m.length := by rw [hmlen]; exact hi
        have hbit : m[i] = false := by
          have h1 : validAtN c i = m.getD i false := by
            simp [validAtN, hm]
          rw [h1, List.getD_eq_getElem _ _ him] at hvalid
          exact hvalid
        have hmem : false ∈ m := hbit ▸ List.getElem_mem him
        have hpos : 0 < nullCountN c := by
          simp only [nullCountN, hm]
          exact List.count_pos_iff.mpr hmem
        have hz : (nullReplaced c sop.identity)
            = List.zipWith (fun b v => if b then v else sop.identity) m c.vals := by
          unfold nullReplaced
          rw [if_pos hpos, hm]
          rfl
        have hzi : i < (List.zipWith (fun b v => if b then v else sop.identity)
            m c.vals).length := by
          rw [List.length_zipWith, hmlen]
          exact lt_min hi hi
        rw [hz, List.getD_eq_getElem _ _ hzi, List.getElem_zipWith, hbit]
        simp

/-- C7 witness: the theorem applied at a concrete nullable `Int` column with
the Sum operator. -/
theorem exclusive_scan_values_witness :
    maskOk (⟨[5, 7, 9], some [true, false, true]⟩ : NColumn Int) = true
    ∧ (exclusive_scan DeviceSum .EXCLUDE
        (⟨[5, 7, 9], some [true, false, true]⟩ : NColumn Int)).vals.length = 3 :=
  ⟨by decide,
   (exclusive_scan_values DeviceSum .EXCLUDE
      ⟨[5, 7, 9], some [true, false, true]⟩ (by decide)).1⟩

section DropNullsLemmas

lemma copy_if_eq_self {R : Type} (input : List R) (p : Nat → Bool)
    (h : ∀ i, i < input.length → p i = true) : copy_if input p = input := by
  unfold copy_if
  have hf : input.enum.filter (fun x => p x.1) = input.enum := by
    rw [List.filter_eq_self]
    intro a ha
    have hget : input[a.1]? = some a.2 := List.mem_enum_iff_getElem?.mp ha
    have hlt : a.1 < input.length := by
      by_contra hge
      push_neg at hge
      rw [List.getElem?_eq_none hge] at hget
      exact Option.noConfusion hget
    exact h a.1 hlt
  rw [hf]
  exact List.enum_map_snd input

lemma keysOk_len (t : GTable) (hwf : keysOk t = true) :
    ∀ c ∈ t.cols, c.len = t.rows ∧
      c.nullCount = (List.range c.len).countP (fun i => valid_at c i == false) := by
  intro c hc
  have h := (List.all_eq_true.mp hwf) c hc
  simp only [Bool.and_eq_true, beq_iff_eq] at h
  exact h

lemma no_nulls_all_valid (t : GTable) (hwf : keysOk t = true)
    (hnn : has_nullsT t = false) :
    ∀ c ∈ t.cols, ∀ i, i < t.rows → valid_at c i = true := by
  intro c hc i hi
  cases hm : c.mask with
  | none => simp [valid_at, hm]
  | some f =>
      have hno := List.any_eq_false.mp hnn c hc
      have hcnt : c.nullCount = 0 := by
        by_contra hne
        apply hno
        simp [hm, Nat.pos_of_ne_zero hne]
      obtain ⟨hlen, hcount⟩ := keysOk_len t hwf c hc
      have hzero : (List.range c.len).countP (fun i => valid_at c i == false) = 0 := by
        rw [← hcount, hcnt]
      have hin : i ∈ List.range c.len := by
        rw [List.mem_range, hlen]
        exact hi
      have := List.countP_eq_zero.mp hzero i hin
      simpa using this

end DropNullsLemmas

/-- C4: on a well-formed key table with at least one key column and the same
row count as the target, `drop_nulls` succeeds and returns exactly the target
rows whose index satisfies the key predicate, in their original relative
order (`copy_if` compaction); and the key predicate keeps a row under `ALL`
exactly when not every key column is null there, and under `ANY` exactly when
no key column is null there. -/
theorem drop_nulls_filters {R : Type} (input : List R) (keys : GTable)
    (dropIf : AnyOrAll) (hwf : keysOk keys = true)
    (hcols : keys.cols.length ≠ 0) (hrows : keys.rows = input.length) :
    drop_nulls input keys dropIf
      = .ok (copy_if input (valid_table_filter keys.cols dropIf))
    ∧ (∀ i, valid_table_filter keys.cols .ALL i
        = !(keys.cols.all (fun c => !(valid_at c i))))
    ∧ (∀ i, valid_table_filter keys.cols .ANY i
        = !(keys.cols.any (fun c => !(valid_at c i)))) := by
  refine ⟨?_, ?_, ?_⟩
  · unfold drop_nulls
    split
    · rename_i hshort
      rcases hshort with h0 | h0 | h0
      · exact absurd h0 hcols
      · have : input = [] := by
          rw [← List.length_eq_zero, ← hrows, h0]
        subst this
        simp [copy_if]
      · have hall : ∀ i, i < input.length →
            valid_table_filter keys.cols dropIf i = true := by
          intro i hi
          have hvalid : ∀ c ∈ keys.cols, valid_at c i = true := fun c hc =>
            no_nulls_all_valid keys hwf h0 c hc i (by rw [hrows]; exact hi)
          cases dropIf with
          | ALL =>
              obtain ⟨c0, hc0⟩ := List.exists_mem_of_ne_nil keys.cols
                (fun hnil => hcols (by rw [hnil]; rfl))
              exact List.any_eq_true.mpr ⟨c0, hc0, hvalid c0 hc0⟩
          | ANY => exact List.all_eq_true.mpr hvalid
        rw [copy_if_eq_self input _ hall]
    · split
      · rename_i hsz
        exact absurd (le_of_eq hrows) hsz
      · rfl
  · intro i
    show keys.cols.any (fun c => valid_at c i) = _
    rw [List.any_eq_not_all_not]
  · intro i
    show keys.cols.all (fun c => valid_at c i) = _
    rw [List.all_eq_not_any_not]

/-- Concrete key table for the C4 witness: one column of three rows whose
row 1 is null. -/
def c4KeyTable : GTable := ⟨[⟨3, 1, some (fun i => !(i == 1))⟩], 3⟩

/-- C4 witness: the theorem applied at a three-row target with the concrete
key table, policy `ANY`; row 1 is dropped. -/
theorem drop_nulls_filters_witness :
    keysOk c4KeyTable = true
    ∧ drop_nulls ([10, 20, 30] : List Nat) c4KeyTable .ANY
        = .ok (copy_if [10, 20, 30] (valid_table_filter c4KeyTable.cols .ANY))
    ∧ copy_if ([10, 20, 30] : List Nat) (valid_table_filter c4KeyTable.cols .ANY)
        = [10, 30] :=
  ⟨by decide,
   (drop_nulls_filters [10, 20, 30] c4KeyTable .ANY (by decide) (by decide) rfl).1,
   by decide⟩

/-- C5 counterexample: a key table of 2 rows with no nulls against a 1-row
target — the key row count exceeds the target's, yet `drop_nulls` does not
fail: the no-null short-circuit returns a copy of the input before the
`CUDF_EXPECTS` row-count check runs. -/
theorem drop_nulls_size_check_skipped :
    (⟨[⟨2, 0, none⟩], 2⟩ : GTable).rows > ([0] : List Nat).length
    ∧ drop_nulls ([0] : List Nat) ⟨[⟨2, 0, none⟩], 2⟩ .ANY = .ok [0] :=
  ⟨by decide, rfl⟩

/-- C5 (amended): when the key table has at least one column, at least one
row and at least one null — so that none of the short-circuit returns fires —
a key row count exceeding the target's makes `drop_nulls` fail with the
size-mismatch error. -/
theorem drop_nulls_size_check {R : Type} (input : List R) (keys : GTable)
    (dropIf : AnyOrAll) (h1 : keys.cols.length ≠ 0) (h2 : keys.rows ≠ 0)
    (h3 : has_nullsT keys = true) (h4 : input.length < keys.rows) :
    drop_nulls input keys dropIf = .error "Column size mismatch" := by
  unfold drop_nulls
  split
  · rename_i h
    rcases h with h | h | h
    · exact absurd h h1
    · exact absurd h h2
    · rw [h3] at h
      exact Bool.noConfusion h
  · split
    · rfl
    · rename_i hle
      push_neg at hle
      omega

/-- Concrete key table for the C5 witness: one column of two rows, both
null. -/
def c5KeyTable : GTable := ⟨[⟨2, 2, some (fun _ => false)⟩], 2⟩

/-- C5 witness: the amended theorem applied at the concrete 2-row null-bearing
key table against a 1-row target. -/
theorem drop_nulls_size_check_witness :
    (c5KeyTable.cols.length ≠ 0 ∧ c5KeyTable.rows ≠ 0
      ∧ has_nullsT c5KeyTable = true ∧ ([0] : List Nat).length < c5KeyTable.rows)
    ∧ drop_nulls ([0] : List Nat) c5KeyTable .ALL = .error "Column size mismatch" :=
  ⟨⟨by decide, by decide, by decide, by decide⟩,
   drop_nulls_size_check [0] c5KeyTable .ALL (by decide) (by decide) (by decide)
     (by decide)⟩

/-- C9: a key column with an absent (null-pointer) mask is valid at every row
index; consequently under `ALL` a key table containing a maskless column
never drops any row (whenever the call returns at all), and under `ANY` the
key predicate is unchanged by discarding the maskless columns, so a maskless
column never causes a drop. -/
theorem maskless_key_columns_never_drop :
    (∀ (len nc i : Nat), valid_at ⟨len, nc, none⟩ i = true)
    ∧ (∀ (R : Type) (input : List R) (keys : GTable),
        (∃ c ∈ keys.cols, c.mask = none) → keys.rows ≤ input.length →
        drop_nulls input keys .ALL = .ok input)
    ∧ (∀ (cols : List GColumn) (i : Nat),
        cols.all (fun c => valid_at c i)
          = (cols.filter (fun c => c.mask.isSome)).all (fun c => valid_at c i)) := by
  refine ⟨fun _ _ _ => rfl, ?_, ?_⟩
  · intro R input keys hmaskless hlen
    obtain ⟨c0, hc0, hmask0⟩ := hmaskless
    by_cases hshort : keys.cols.length = 0 ∨ keys.rows = 0 ∨ has_nullsT keys = false
    · unfold drop_nulls
      rw [if_pos hshort]
    · have hnot : ¬¬(keys.rows ≤ input.length) := not_not_intro hlen
      have hall : ∀ i, i < input.length →
          valid_table_filter keys.cols .ALL i = true := by
        intro i _
        exact List.any_eq_true.mpr ⟨c0, hc0, by simp [valid_at, hmask0]⟩
      unfold drop_nulls
      rw [if_neg hshort, if_neg hnot, copy_if_eq_self input _ hall]
  · intro cols i
    induction cols with
    | nil => rfl
    | cons c rest ih =>
        cases hm : c.mask with
        | none =>
            have hv : valid_at c i = true := by simp [valid_at, hm]
            rw [List.all_cons, List.filter_cons]
            simp only [hm, Option.isSome_none]
            rw [hv, if_neg (by simp)]
            simpa using ih
        | some f =>
            rw [List.all_cons, List.filter_cons]
            simp only [hm, Option.isSome_some]
            rw [if_pos trivial, List.all_cons, ih]

/-- Concrete key table for the C9 witness: a maskless column next to a
null-bearing one. -/
def c9KeyTable : GTable := ⟨[⟨2, 0, none⟩, ⟨2, 1, some (fun i => i == 0)⟩], 2⟩

/-- C9 witness: under `ALL`, the key table with a maskless column drops
nothing from a two-row target. -/
theorem maskless_key_columns_never_drop_witness :
    (∃ c ∈ c9KeyTable.cols, c.mask = none)
    ∧ drop_nulls ([5, 6] : List Nat) c9KeyTable .ALL = .ok [5, 6] :=
  ⟨⟨⟨2, 0, none⟩, by simp [c9KeyTable], rfl⟩,
   maskless_key_columns_never_drop.2.1 Nat [5, 6] c9KeyTable
     ⟨⟨2, 0, none⟩, by simp [c9KeyTable], rfl⟩ (by decide)⟩

section StringParseLemmas

lemma digitsValFrom_cons (acc : Int) (c : Nat) (l : List Nat) :
    digitsValFrom acc (c :: l) = digitsValFrom (acc * 10 + ((c : Int) - 48)) l := rfl

lemma digit_loop_spec (s : List Nat) :
    ∀ (t : List Nat) (pos : Nat) (acc : Int), t = s.drop pos →
      (digit_loop (fun i => s.getD i 0) pos acc t.length).1
        = digitsValFrom acc (t.takeWhile is_digit) := by
  intro t
  induction t with
  | nil =>
      intro pos acc ht
      simp [digit_loop, digitsValFrom]
  | cons c t' ih =>
      intro pos acc ht
      have hget : s.getD pos 0 = c := by
        have h0 : (s.drop pos)[0]? = some c := by rw [← ht]; simp
        rw [List.getElem?_drop] at h0
        rw [List.getD_eq_getElem?_getD]
        simp only [Nat.add_zero] at h0
        rw [h0]
        rfl
      have ht' : t' = s.drop (pos + 1) := by
        have htail : (s.drop pos).tail = t' := by rw [← ht]; rfl
        rw [← htail, List.tail_drop]
      show (digit_loop (fun i => s.getD i 0) pos acc (t'.length + 1)).1 = _
      rw [digit_loop]
      simp only [hget]
      by_cases hd : c < 48 ∨ 57 < c
      · rw [if_pos hd]
        have hdig : is_digit c = false := by
          unfold is_digit
          rcases hd with h | h <;> simp <;> omega
        rw [List.takeWhile_cons, hdig]
        simp [digitsValFrom]
      · rw [if_neg hd]
        have hdig : is_digit c = true := by
          unfold is_digit
          push_neg at hd
          simp
          omega
        rw [List.takeWhile_cons, hdig, if_pos rfl, digitsValFrom_cons]
        exact ih (pos + 1) (acc * 10 + ((c : Int) - 48)) ht'

/-- The parser of the source agrees with the spec-side parser on every byte
string. -/
lemma string_to_integer_eq_parse_spec (s : List Nat) :
    string_to_integer s = parse_spec s := by
  cases s with
  | nil => rfl
  | cons c t =>
      have hget0 : (c :: t).getD 0 0 = c := rfl
      have hfuel1 : (((c :: t).length : Int) - 1).toNat = t.length := by
        simp only [List.length_cons]
        omega
      have hfuel0 : (((c :: t).length : Int)).toNat = t.length + 1 := by
        simp only [List.length_cons]
        omega
      have hdrop1 : t = (c :: t).drop 1 := rfl
      have hdrop0 : c :: t = (c :: t).drop 0 := rfl
      unfold string_to_integer string_to_integer_run
      simp only [hget0]
      by_cases h45 : c = 45
      · rw [if_pos (Or.inl h45), if_pos h45]
        simp only [hfuel1]
        rw [digit_loop_spec (c :: t) t 1 0 hdrop1]
        unfold parse_spec
        rw [hget0, if_pos h45]
        show digitsValFrom 0 (t.takeWhile is_digit) * (-1) = _
        rw [List.drop_one]
        show _ = -(digitsVal ((c :: t).tail.takeWhile is_digit))
        simp [digitsVal]
      · by_cases h43 : c = 43
        · rw [if_pos (Or.inr h43), if_neg h45]
          simp only [hfuel1]
          rw [digit_loop_spec (c :: t) t 1 0 hdrop1]
          unfold parse_spec
          rw [hget0, if_neg h45, if_pos h43]
          rw [List.drop_one]
          show digitsValFrom 0 (t.takeWhile is_digit) * 1 = _
          simp [digitsVal]
        · rw [if_neg (by simp [h45, h43])]
          simp only [hfuel0]
          have : t.length + 1 = (c :: t).length := rfl
          rw [this, digit_loop_spec (c :: t) (c :: t) 0 0 hdrop0]
          unfold parse_spec
          rw [hget0, if_neg h45, if_neg h43]
          show digitsValFrom 0 ((c :: t).takeWhile is_digit) * 1 = _
          simp [digitsVal]

end StringParseLemmas

section DigitsLemmas

lemma digitsLSD_digits (n : Nat) : ∀ c ∈ digitsLSD n, is_digit c = true := by
  induction n using Nat.strong_induction_on with
  | _ n ih =>
      intro c hc
      rw [digitsLSD] at hc
      by_cases h : n = 0
      · simp [h] at hc
      · rw [dif_neg h] at hc
        rcases List.mem_cons.mp hc with h1 | h1
        · subst h1
          have hlt : n % 10 < 10 := Nat.mod_lt _ (by norm_num)
          simp only [is_digit, Bool.and_eq_true, decide_eq_true_eq]
          omega
        · exact ih (n / 10) (Nat.div_lt_self (Nat.pos_of_ne_zero h) (by norm_num)) c h1

lemma digitsLSD_ne_nil (n : Nat) (h : n ≠ 0) : digitsLSD n ≠ [] := by
  rw [digitsLSD, dif_neg h]
  exact List.cons_ne_nil _ _

lemma digitsValFrom_append_single (acc : Int) (ds : List Nat) (c : Nat) :
    digitsValFrom acc (ds ++ [c]) = (digitsValFrom acc ds) * 10 + ((c : Int) - 48) := by
  unfold digitsValFrom
  rw [List.foldl_append]
  rfl

lemma digitsVal_reverse_digitsLSD (n : Nat) :
    digitsVal ((digitsLSD n).reverse) = n := by
  induction n using Nat.strong_induction_on with
  | _ n ih =>
      by_cases h : n = 0
      · subst h
        rw [digitsLSD]
        rfl
      · rw [digitsLSD, dif_neg h, List.reverse_cons]
        unfold digitsVal at ih ⊢
        rw [digitsValFrom_append_single]
        rw [ih (n / 10) (Nat.div_lt_self (Nat.pos_of_ne_zero h) (by norm_num))]
        have hmod := Nat.div_add_mod n 10
        push_cast
        omega

end DigitsLemmas

lemma parse_spec_sign_neg (s : List Nat) (h : s.getD 0 0 = 45) :
    parse_spec s = -(digitsVal ((s.drop 1).takeWhile is_digit)) := by
  unfold parse_spec
  rw [if_pos h]

lemma parse_spec_no_sign (s : List Nat) (h45 : s.getD 0 0 ≠ 45)
    (h43 : s.getD 0 0 ≠ 43) :
    parse_spec s = digitsVal (s.takeWhile is_digit) := by
  unfold parse_spec
  rw [if_neg h45, if_neg h43]

/-- Strictly above the `w`-bit type minimum the wrapping negation of
`int_to_string` is the plain negation, so the printed element is the sign
byte (for a negative value) followed by the decimal digits of the absolute
value. -/
lemma int_to_string_in_range (w : Nat) (v : Int)
    (h1 : -(2 ^ (w - 1)) < v) (h2 : v < 2 ^ (w - 1)) :
    int_to_string w v
      = if v = 0 then [48]
        else ((digitsLSD v.natAbs) ++ (if v < 0 then [45] else [])).reverse := by
  unfold int_to_string
  by_cases h0 : v = 0
  · rw [if_pos h0, if_pos h0]
  · rw [if_neg h0, if_neg h0]
    by_cases hneg : v < 0
    · rw [if_pos hneg, if_pos hneg]
      have hwpos : w ≠ 0 := by
        intro hw0
        rw [hw0] at h1 h2
        norm_num at h1 h2
        omega
      obtain ⟨w', rfl⟩ : ∃ w', w = w' + 1 :=
        ⟨w - 1, (Nat.succ_pred_eq_of_pos (Nat.pos_of_ne_zero hwpos)).symm⟩
      have hpow : (2 : Int) ^ (w' + 1) = 2 ^ w' + 2 ^ w' := by
        rw [pow_succ]
        ring
      have hW : w' + 1 - 1 = w' := rfl
      rw [hW] at h1 h2
      have hwrap : toSigned (w' + 1) (-v) = -v := by
        unfold toSigned
        rw [hW, Int.emod_eq_of_lt (by omega) (by rw [hpow]; omega)]
        omega
      have htn : (toSigned (w' + 1) (-v)).toNat = v.natAbs := by
        rw [hwrap]
        omega
      rw [htn]
    · rw [if_neg hneg, if_neg hneg]
      have htn : v.toNat = v.natAbs := by omega
      rw [htn]

/-- Round trip through the embedded printer and parser: for a value of a
signed `w`-bit column lying strictly above the type minimum, parsing the
printed element recovers it.  (At the type minimum the wrapped negation
leaves the digit loop empty and the element is just `"-"`, which parses as
0.) -/
lemma parse_print_roundtrip (w : Nat) (v : Int)
    (hlo : -(2 ^ (w - 1)) < v) (hhi : v < 2 ^ (w - 1)) :
    string_to_integer (int_to_string w v) = v := by
  rw [string_to_integer_eq_parse_spec, int_to_string_in_range w v hlo hhi]
  by_cases h0 : v = 0
  · rw [if_pos h0, h0]
    decide
  · rw [if_neg h0]
    have hn : v.natAbs ≠ 0 := by
      simpa using h0
    have hdigits : ∀ c ∈ (digitsLSD v.natAbs).reverse, is_digit c = true := by
      intro c hc
      exact digitsLSD_digits v.natAbs c (List.mem_reverse.mp hc)
    have hne : (digitsLSD v.natAbs).reverse ≠ [] := by
      simpa using digitsLSD_ne_nil v.natAbs hn
    have htake : (digitsLSD v.natAbs).reverse.takeWhile is_digit
        = (digitsLSD v.natAbs).reverse := List.takeWhile_eq_self_iff.mpr hdigits
    have hhead : ∀ d : Nat, (digitsLSD v.natAbs).reverse.getD 0 d
        ∈ (digitsLSD v.natAbs).reverse := by
      intro d
      cases hrev : (digitsLSD v.natAbs).reverse with
      | nil => exact absurd hrev hne
      | cons a l => exact List.mem_cons_self a l
    have hhead_digit : ∀ d : Nat, is_digit ((digitsLSD v.natAbs).reverse.getD 0 d)
        = true := fun d => hdigits _ (hhead d)
    have hhead45 : (digitsLSD v.natAbs).reverse.getD 0 0 ≠ 45 := by
      have := hhead_digit 0
      simp only [is_digit, Bool.and_eq_true, decide_eq_true_eq] at this
      omega
    have hhead43 : (digitsLSD v.natAbs).reverse.getD 0 0 ≠ 43 := by
      have := hhead_digit 0
      simp only [is_digit, Bool.and_eq_true, decide_eq_true_eq] at this
      omega
    by_cases hneg : v < 0
    · rw [if_pos hneg, List.reverse_append]
      show parse_spec (45 :: (digitsLSD v.natAbs).reverse) = v
      rw [parse_spec_sign_neg _ (by simp)]
      simp only [List.drop_one, List.tail_cons]
      rw [htake, digitsVal_reverse_digitsLSD]
      omega
    · rw [if_neg hneg]
      simp only [List.append_nil]
      rw [parse_spec_no_sign _ hhead45 hhead43, htake, digitsVal_reverse_digitsLSD]
      omega

/-- The narrowing cast is the identity on the signed 32-bit range. -/
lemma toInt32_id (v : Int) (h1 : -(2 ^ 31) ≤ v) (h2 : v < 2 ^ 31) :
    toInt32 v = v := by
  unfold toInt32
  rw [Int.emod_eq_of_lt (by omega) (by omega)]
  omega

/-- C1 counterexample: the value `2^31` fits the signed 64-bit range, yet on
an INT64 column `to_integers (from_integers 64 [some (2^31)])` yields
`[some (-(2^31))]` — the hard-coded INT32 output of `to_integers` wraps it;
and on an INT32 column holding the type minimum `-2^31` (also within the
64-bit range) the printer's wrapping negation emits just `"-"`, which parses
back to 0.  Either input refutes the 64-bit round-trip claim. -/
theorem to_from_integers_int64_cex :
    (-(2 ^ 63) ≤ ((2 : Int) ^ 31) ∧ ((2 : Int) ^ 31) ≤ 2 ^ 63 - 1)
    ∧ to_integers (from_integers 64 [some ((2 : Int) ^ 31)])
        = [some (-((2 : Int) ^ 31))]
    ∧ [some (-((2 : Int) ^ 31))] ≠ [some ((2 : Int) ^ 31)]
    ∧ (-(2 ^ 63) ≤ -((2 : Int) ^ 31) ∧ -((2 : Int) ^ 31) ≤ 2 ^ 63 - 1)
    ∧ to_integers (from_integers 32 [some (-((2 : Int) ^ 31))]) = [some 0]
    ∧ [some (0 : Int)] ≠ [some (-((2 : Int) ^ 31))] := by
  refine ⟨by norm_num, ?_, by norm_num, by norm_num, ?_, by norm_num⟩
  · show [(Option.map (int_to_string 64) (some ((2 : Int) ^ 31))).map
      (fun s => toInt32 (string_to_integer s))] = _
    simp only [Option.map_some']
    rw [parse_print_roundtrip 64 _ (by norm_num) (by norm_num)]
    norm_num [toInt32]
  · have hstr : int_to_string 32 (-((2 : Int) ^ 31)) = [45] := by
      unfold int_to_string
      rw [if_neg (by norm_num), if_pos (by norm_num), if_pos (by norm_num)]
      have hwrap : toSigned 32 (-(-((2 : Int) ^ 31))) = -(2 ^ 31) := by decide
      have htn : ((-((2 : Int) ^ 31)).toNat) = 0 := by decide
      rw [hwrap, htn, digitsLSD]
      rfl
    show [(Option.map (int_to_string 32) (some (-((2 : Int) ^ 31)))).map
      (fun s => toInt32 (string_to_integer s))] = _
    simp only [Option.map_some']
    rw [hstr]
    decide

/-- C1 (amended): for a signed `w`-bit integer column whose values lie
strictly above the type minimum (where the printer's wrapping negation
coincides with negation) and fit the signed 32-bit range of the INT32 output
column of `to_integers`, `to_integers (from_integers w x) = x` — values
recovered element-wise and nulls preserved positionally (`none ↔ none`). -/
theorem to_from_integers_roundtrip (w : Nat) (x : List (Option Int))
    (h : ∀ v : Int, some v ∈ x →
      (-(2 ^ (w - 1)) < v ∧ v < 2 ^ (w - 1)) ∧ (-(2 ^ 31) ≤ v ∧ v < 2 ^ 31)) :
    to_integers (from_integers w x) = x := by
  induction x with
  | nil => rfl
  | cons e rest ih =>
      have hrest : ∀ v : Int, some v ∈ rest →
          (-(2 ^ (w - 1)) < v ∧ v < 2 ^ (w - 1)) ∧ (-(2 ^ 31) ≤ v ∧ v < 2 ^ 31) :=
        fun v hv => h v (List.mem_cons_of_mem e hv)
      have hhead : (Option.map (int_to_string w) e).map
          (fun s => toInt32 (string_to_integer s)) = e := by
        cases e with
        | none => rfl
        | some v =>
            obtain ⟨⟨ha, hb⟩, h1, h2⟩ := h v (List.mem_cons_self _ _)
            simp only [Option.map_some']
            rw [parse_print_roundtrip w v ha hb, toInt32_id v h1 h2]
      show ((Option.map (int_to_string w) e).map
          (fun s => toInt32 (string_to_integer s)))
          :: to_integers (from_integers w rest) = e :: rest
      rw [hhead, ih hrest]

/-- C1 witness: the amended theorem applied at a concrete INT32 (`w = 32`)
column with a null and two in-range values. -/
theorem to_from_integers_roundtrip_witness :
    (∀ v : Int, some v ∈ ([some 42, none, some (-7)] : List (Option Int)) →
      (-(2 ^ (32 - 1)) < v ∧ v < 2 ^ (32 - 1)) ∧ (-(2 ^ 31) ≤ v ∧ v < 2 ^ 31))
    ∧ to_integers (from_integers 32 [some 42, none, some (-7)])
        = [some 42, none, some (-7)] :=
  ⟨by
    intro v hv
    simp only [List.mem_cons, List.not_mem_nil, or_false] at hv
    rcases hv with h | h | h
    · cases h; norm_num
    · exact absurd h (by simp)
    · cases h; norm_num,
   to_from_integers_roundtrip 32 [some 42, none, some (-7)] (by
    intro v hv
    simp only [List.mem_cons, List.not_mem_nil, or_false] at hv
    rcases hv with h | h | h
    · cases h; norm_num
    · exact absurd h (by simp)
    · cases h; norm_num)⟩

/-- C6: the parser of `to_integers` behaves, on every string element, as an
optional leading sign followed by the maximal run of decimal digits (trailing
non-digit content ignored, no leading digits parses as 0); on the strings
"42", "-42", "+42", "42abc", "abc" (given as byte lists) `to_integers`
yields 42, -42, 42, 42, 0. -/
theorem to_integers_parses_sign_digits :
    (∀ s : List Nat, string_to_integer s = parse_spec s)
    ∧ to_integers [some [52, 50], some [45, 52, 50], some [43, 52, 50],
        some [52, 50, 97, 98, 99], some [97, 98, 99]]
      = [some 42, some (-42), some 42, some 42, some 0] :=
  ⟨string_to_integer_eq_parse_spec, by decide⟩

/-- C10: `string_to_integer` reads the element's first byte (the sign test)
before consulting the byte length, so on a zero-length element its read set
is exactly the first byte — an index outside the element's empty byte range
`[0, 0)` — whatever the surrounding memory holds; no length precondition
guards the parse. -/
theorem string_to_integer_reads_out_of_range :
    ∀ data : Nat → Nat, (string_to_integer_run data 0).2 = [0]
      ∧ ∀ j ∈ (string_to_integer_run data 0).2, ¬(j < 0) := by
  intro data
  refine ⟨?_, ?_⟩
  · unfold string_to_integer_run
    by_cases h : data 0 = 45 ∨ data 0 = 43
    · rw [if_pos h]
      rfl
    · rw [if_neg h]
      rfl
  · intro j _
    omega

/-- C10 witness: the theorem applied at a concrete memory holding the byte
'a' everywhere: the zero-length parse still reads byte 0. -/
theorem string_to_integer_reads_out_of_range_witness :
    (string_to_integer_run (fun _ => 97) 0).2 = [0] ∧ ¬((0 : Nat) < 0) :=
  ⟨(string_to_integer_reads_out_of_range (fun _ => 97)).1,
   (string_to_integer_reads_out_of_range (fun _ => 97)).2 0 (by
     rw [(string_to_integer_reads_out_of_range (fun _ => 97)).1]
     exact List.mem_singleton.mpr rfl)⟩
